import Mathlib

set_option maxRecDepth 8192

/-!
Verification of the conflict-marker resolution scripts
`src/resolve_conflicts.py` and `src/resolve_remaining.py`.

File content is modelled as `List Char`.  The two regular-expression
substitutions of the scripts are modelled by executable functions that
reproduce the semantics of Python `re.sub` for the two concrete patterns:

* the special-case pattern (resolve_conflicts.py line 12)
  removes a conflict region whose `ours` side is a single
  vi declaration line and whose `theirs` side is empty;
* the generic pattern (resolve_conflicts.py line 19 and
  resolve_remaining.py line 28, compiled with re.DOTALL)
  replaces a region by its `theirs` side.

Python `re.sub` scans left to right; at each position the leftmost match is
taken and scanning resumes after it.  For the generic pattern
`<<<<<<< HEAD\n(.*?)\n=======\n(.*?)\n>>>>>>> test/test-failure-analysis`
with DOTALL both groups are non-greedy, so a match at a position consists of
the literal start marker, then text up to the FIRST occurrence of the
separator literal, then text up to the FIRST occurrence of the end literal
after that separator.  (If no end literal follows the first separator
occurrence it follows none of the later ones either, so no backtracking case
is lost.)  For the special-case pattern, `\s*` is greedy and is followed by
the non-whitespace character c, so it always consumes the maximal whitespace
run.  The per-file and batch behaviour (existence check, marker check, error
catching) is modelled over an explicit file-system state.
-/

/-- Python whitespace class `\s` restricted to the ASCII range
(the characters relevant to the processed files). -/
def isPySpace (c : Char) : Bool :=
  c = ' ' || c = '\t' || c = '\n' || c = '\r' || c = '\x0b' || c = '\x0c'

/-- The apostrophe character, written by code so that the source file
contains no bare apostrophe in string literals. -/
def apos : Char := Char.ofNat 39

/-- The start-marker line with its newline: the literal `<<<<<<< HEAD\n`
that begins both regex patterns. -/
def startMarker : List Char := "<<<<<<< HEAD\n".toList

/-- The bare start-marker text `<<<<<<< HEAD` (12 characters): the string
whose containment resolve_remaining.py line 22 tests with `in`. -/
def startLit : List Char := "<<<<<<< HEAD".toList

/-- The separator literal `\n=======\n` appearing in both regex patterns. -/
def sepB : List Char := "\n=======\n".toList

/-- The separator line with trailing newline only, `=======\n`
(used to write down region texts whose `ours` segment is empty). -/
def sep8 : List Char := "=======\n".toList

/-- The end-marker literal `>>>>>>> test/test-failure-analysis`
(the expected incoming-branch label line). -/
def endLit : List Char := ">>>>>>> test/test-failure-analysis".toList

/-- The end literal preceded by its newline, `\n>>>>>>> test/test-failure-analysis`,
as it appears at the end of both regex patterns. -/
def endC : List Char := '\n' :: endLit

/-- The vi declaration line body matched by the special-case pattern:
`const vi: typeof import(`, an apostrophe, `vitest`, an apostrophe, `).vi`. -/
def viDecl : List Char :=
  "const vi: typeof import(".toList ++ [apos] ++ "vitest".toList ++ [apos] ++ ").vi".toList

/-- The literal tail of the special-case pattern after `<<<<<<< HEAD\n\s*`:
the vi declaration followed by `\n=======\n>>>>>>> test/test-failure-analysis`. -/
def viLit : List Char := viDecl ++ sepB ++ endLit

/-- Drops the needle `n` from the front of `s`: `some r` iff `s = n ++ r`. -/
def dropPre : List Char → List Char → Option (List Char)
  | [], s => some s
  | _ :: _, [] => none
  | a :: as, b :: bs => if a = b then dropPre as bs else none

/-- First occurrence of needle `n` in `s`: `some (p, q)` means
`s = p ++ n ++ q` with `p` shortest.  This is how a non-greedy group
followed by the literal `n` matches in the Python patterns. -/
def splitFirst (n : List Char) : List Char → Option (List Char × List Char)
  | [] =>
    match dropPre n [] with
    | some r => some ([], r)
    | none => none
  | c :: t =>
    match dropPre n (c :: t) with
    | some r => some ([], r)
    | none =>
      match splitFirst n t with
      | some pq => some (c :: pq.1, pq.2)
      | none => none

/-- Decidable substring containment, via `splitFirst`. -/
def containsSub (n s : List Char) : Bool := (splitFirst n s).isSome

/-- Substring occurrence as a proposition. -/
def Occurs (n s : List Char) : Prop := ∃ p q, s = p ++ n ++ q

/-- Match of the special-case vi pattern at the start of `s`
(resolve_conflicts.py line 12): start marker, maximal whitespace run,
then the literal `viLit`.  Returns the remainder after the match
(the replacement is empty). -/
def matchViAt (s : List Char) : Option (List Char) :=
  match dropPre startMarker s with
  | none => none
  | some s1 => dropPre viLit (s1.dropWhile isPySpace)

/-- Match of the generic keep-theirs pattern at the start of `s`
(resolve_conflicts.py line 19, resolve_remaining.py line 28, re.DOTALL):
start marker, shortest group 1 up to the first separator literal, shortest
group 2 up to the first end literal.  Returns `(group 2, remainder)`. -/
def matchGeneralAt (s : List Char) : Option (List Char × List Char) :=
  match dropPre startMarker s with
  | none => none
  | some s1 =>
    match splitFirst sepB s1 with
    | none => none
    | some g1s2 =>
      match splitFirst endC g1s2.2 with
      | none => none
      | some g2r => some (g2r.1, g2r.2)

/-- Fuel-driven scan of `re.sub` for the vi pattern: at each position try the
pattern; on a match emit nothing and resume after it, otherwise keep the
character and move on. -/
def viGo : Nat → List Char → List Char
  | 0, s => s
  | _ + 1, [] => []
  | f + 1, c :: t =>
    match matchViAt (c :: t) with
    | some r => viGo f r
    | none => c :: viGo f t

/-- The special-case pass `resolveSpecialCase`:
`re.sub(vi_conflict_pattern, "", content)` of resolve_conflicts.py line 15. -/
def viSub (s : List Char) : List Char := viGo s.length s

/-- Fuel-driven scan of `re.sub` for the generic pattern: on a match emit
group 2 and resume after the match. -/
def genGo : Nat → List Char → List Char
  | 0, s => s
  | _ + 1, [] => []
  | f + 1, c :: t =>
    match matchGeneralAt (c :: t) with
    | some g2r => g2r.1 ++ genGo f g2r.2
    | none => c :: genGo f t

/-- The generic keep-theirs pass `resolveGeneric`:
`re.sub(general_conflict_pattern, keep_theirs, content, flags=re.DOTALL)`
of resolve_conflicts.py line 24 and resolve_remaining.py line 29. -/
def genericSub (s : List Char) : List Char := genGo s.length s

/-- The composed transformation of resolve_conflicts.py lines 15 and 24:
the special-case pass followed by the generic pass. -/
def transform (s : List Char) : List Char := genericSub (viSub s)

/-- Splits content into its lines (separated by the newline character),
used to state which lines are exactly a conflict marker. -/
def lines : List Char → List (List Char)
  | [] => [[]]
  | c :: t =>
    if c = '\n' then [] :: lines t
    else
      match lines t with
      | [] => [[c]]
      | l :: ls => (c :: l) :: ls

/-! ### File system model, per-file operations and the two batch loops -/

/-- A file on disk, with optional injected read and write failures standing
for the OSError conditions the scripts catch (permission errors and the
like).  A read failure aborts before the content is seen; a write failure
aborts when opening for writing, leaving the file unchanged. -/
structure PyFile where
  content : List Char
  readError : Option (List Char)
  writeError : Option (List Char)
deriving DecidableEq

/-- Per-file outcome, as printed by the scripts: resolved, no conflicts
found, or an error with the cause message. -/
inductive Outcome where
  | resolved (path : String)
  | noConflict (path : String)
  | error (path : String) (msg : List Char)
deriving DecidableEq

/-- The path an outcome reports about. -/
def Outcome.path : Outcome → String
  | .resolved p => p
  | .noConflict p => p
  | .error p _ => p

/-- The file system: an association list from paths to files. -/
abbrev FS := List (String × PyFile)

def fsLookup : FS → String → Option PyFile
  | [], _ => none
  | (q, f) :: t, p => if q = p then some f else fsLookup t p

/-- Existence check, `os.path.exists` of the batch loops. -/
def fsExists (fs : FS) (p : String) : Bool := (fsLookup fs p).isSome

/-- Overwrites the content of an existing path (the scripts only ever write
to a path they have just read, so no entry is created). -/
def fsWrite : FS → String → List Char → FS
  | [], _, _ => []
  | (q, f) :: t, p, c =>
    if q = p then (q, { f with content := c }) :: t else (q, f) :: fsWrite t p c

/-- Cause message of opening a non-existent path. -/
def notFoundMsg : List Char := "No such file or directory".toList

/-- Per-file behaviour of resolve_conflicts.py (function resolve_conflicts,
lines 6-30, with the try/except of its caller, lines 54-57): read the file,
apply the special-case pass then the generic pass, write back
unconditionally, report `Resolved conflicts in` or an error. -/
def resolve_conflicts (fs : FS) (p : String) : Outcome × FS :=
  match fsLookup fs p with
  | none => (.error p notFoundMsg, fs)
  | some f =>
    match f.readError with
    | some m => (.error p m, fs)
    | none =>
      match f.writeError with
      | some m => (.error p m, fs)
      | none => (.resolved p, fsWrite fs p (genericSub (viSub f.content)))

/-- Per-file behaviour of resolve_remaining.py (function
resolve_generic_conflicts, lines 16-37): read the file; if the content has
no occurrence of `<<<<<<< HEAD`, report no conflicts and return without
writing; otherwise apply the generic pass when the preference is `test` and
write back; any exception is caught and reported with its message. -/
def resolve_generic_conflicts (fs : FS) (p : String) (preference : String) :
    Outcome × FS :=
  match fsLookup fs p with
  | none => (.error p notFoundMsg, fs)
  | some f =>
    match f.readError with
    | some m => (.error p m, fs)
    | none =>
      if containsSub startLit f.content then
        match f.writeError with
        | some m => (.error p m, fs)
        | none =>
          (.resolved p,
            fsWrite fs p (if preference = "test" then genericSub f.content else f.content))
      else (.noConflict p, fs)

/-- The batch loop of resolve_conflicts.py (lines 52-57): skip non-existent
paths, call resolve_conflicts on the rest, never abort. -/
def resolveBatch1 : FS → List String → List Outcome × FS
  | fs, [] => ([], fs)
  | fs, p :: ps =>
    if fsExists fs p then
      ((resolve_conflicts fs p).1 :: (resolveBatch1 (resolve_conflicts fs p).2 ps).1,
        (resolveBatch1 (resolve_conflicts fs p).2 ps).2)
    else resolveBatch1 fs ps

/-- The batch loop of resolve_remaining.py (lines 40-42): iterate the
(path, preference) pairs of the dict in order, skip non-existent paths. -/
def resolveBatch2 : FS → List (String × String) → List Outcome × FS
  | fs, [] => ([], fs)
  | fs, e :: es =>
    if fsExists fs e.1 then
      ((resolve_generic_conflicts fs e.1 e.2).1 ::
          (resolveBatch2 (resolve_generic_conflicts fs e.1 e.2).2 es).1,
        (resolveBatch2 (resolve_generic_conflicts fs e.1 e.2).2 es).2)
    else resolveBatch2 fs es



/-! ### Concrete contents and file systems used in scenario theorems -/

/-- A well-formed conflict region whose end label is `other`, not the
expected identifier. -/
def otherEnd : List Char := '\n' :: ">>>>>>> other".toList

def region1 : List Char := startMarker ++ "a".toList ++ sepB ++ "b".toList ++ otherEnd

/-- Content holding the `other`-labelled region followed by interstitial
text and a region with the expected end label. -/
def input1 : List Char :=
  region1 ++ "\nstuff\n".toList ++ startMarker ++ "c".toList ++ sepB ++
    "d".toList ++ endC

/-- The vi-declaration scenario input of specification section 8. -/
def input3 : List Char := startMarker ++ "    ".toList ++ viLit ++ ['\n']

/-- Content whose resolution produces a fresh resolvable region: group 2 of
the only match contains a start marker and a separator, and the text after
the match supplies an end literal. -/
def input4 : List Char :=
  startMarker ++ "x".toList ++ sepB ++ startMarker ++ "A".toList ++ sepB ++
    "B".toList ++ endC ++ "\nQ".toList ++ endC

/-- Content whose start-marker text is preceded by `AB` on the same line, so
no line is exactly the start marker. -/
def input5 : List Char :=
  "AB".toList ++ startMarker ++ "u".toList ++ sepB ++ "v".toList ++ endC

/-- The keep-theirs scenario input of specification section 8. -/
def input6 : List Char :=
  startMarker ++ "const x = 1".toList ++ sepB ++ "const x = 2".toList ++ endC ++ ['\n']

/-- Content with `AB` before the start marker on the same line. -/
def input7 : List Char :=
  "AB".toList ++ startMarker ++ "x".toList ++ sepB ++ "y".toList ++ endC

/-- A file whose content has no conflict marker and no errors. -/
def fileHello : PyFile := { content := "hello".toList, readError := none, writeError := none }

def fsA : FS := [("a.txt", fileHello)]

def fsB : FS := [("b.txt", fileHello)]

/-- A file whose read fails with a cause message. -/
def msg9 : List Char := "Permission denied".toList

def f9 : PyFile := { content := "x".toList, readError := some msg9, writeError := none }

def fs9 : FS := [("r.txt", f9)]

/-! ### Basic lemmas about the matching primitives -/

theorem dropPre_iff (n s r : List Char) : dropPre n s = some r ↔ s = n ++ r := by
  induction n generalizing s with
  | nil => simp [dropPre]
  | cons a as ih =>
    cases s with
    | nil => simp [dropPre]
    | cons b bs =>
      by_cases hab : a = b
      · subst hab
        simpa [dropPre] using ih bs
      · simp [dropPre, hab, Ne.symm hab]

theorem splitFirst_some (n : List Char) :
    ∀ s p q, splitFirst n s = some (p, q) → s = p ++ n ++ q := by
  intro s
  induction s with
  | nil =>
    intro p q h
    simp only [splitFirst] at h
    cases hd : dropPre n [] with
    | none => rw [hd] at h; exact absurd h (by simp)
    | some r =>
      rw [hd] at h
      obtain ⟨hp, hq⟩ := by simpa using h
      have := (dropPre_iff n [] r).1 hd
      subst hp; subst hq
      simpa using this
  | cons c t ih =>
    intro p q h
    simp only [splitFirst] at h
    cases hd : dropPre n (c :: t) with
    | some r =>
      rw [hd] at h
      obtain ⟨hp, hq⟩ := by simpa using h
      have := (dropPre_iff n (c :: t) r).1 hd
      subst hp; subst hq
      simpa using this
    | none =>
      rw [hd] at h
      cases hs : splitFirst n t with
      | none => rw [hs] at h; exact absurd h (by simp)
      | some pq =>
        rw [hs] at h
        obtain ⟨hp, hq⟩ := by simpa using h
        have := ih pq.1 pq.2 (by rw [hs])
        subst hp; subst hq
        simp [this]

theorem occurs_of_splitFirst_isSome {n s : List Char}
    (h : (splitFirst n s).isSome) : Occurs n s := by
  cases hs : splitFirst n s with
  | none => rw [hs] at h; simp at h
  | some pq => exact ⟨pq.1, pq.2, splitFirst_some n s pq.1 pq.2 (by rw [hs])⟩

theorem splitFirst_isSome_of_occurs {n s : List Char}
    (h : Occurs n s) : (splitFirst n s).isSome := by
  obtain ⟨p, q, hs⟩ := h
  subst hs
  induction p with
  | nil =>
    simp only [List.nil_append]
    have hd : dropPre n (n ++ q) = some q := (dropPre_iff n (n ++ q) q).2 rfl
    cases hnq : n ++ q with
    | nil =>
      obtain ⟨hn, hq⟩ := List.append_eq_nil.1 hnq
      subst hn; subst hq
      simp [splitFirst, dropPre]
    | cons c t =>
      rw [hnq] at hd
      simp [splitFirst, hd]
  | cons c p' ih =>
    simp only [List.cons_append, splitFirst]
    cases hd : dropPre n (c :: (p' ++ n ++ q)) with
    | some r => simp
    | none =>
      cases hs : splitFirst n (p' ++ n ++ q) with
      | none => rw [hs] at ih; simp at ih
      | some pq => simp

theorem contains_iff (n s : List Char) : containsSub n s = true ↔ Occurs n s := by
  constructor
  · intro h
    exact occurs_of_splitFirst_isSome (by simpa [containsSub] using h)
  · intro h
    simpa [containsSub] using splitFirst_isSome_of_occurs h

theorem splitFirst_eq_none {n s : List Char} (h : ¬ Occurs n s) :
    splitFirst n s = none := by
  cases hs : splitFirst n s with
  | none => rfl
  | some pq =>
    exact absurd (occurs_of_splitFirst_isSome (by rw [hs]; simp)) h

theorem occurs_length {n s : List Char} (h : Occurs n s) : n.length ≤ s.length := by
  obtain ⟨p, q, hs⟩ := h
  subst hs
  simp
  omega

theorem occurs_mem {n s : List Char} (h : Occurs n s) {c : Char} (hc : c ∈ n) :
    c ∈ s := by
  obtain ⟨p, q, hs⟩ := h
  subst hs
  simp [hc]

theorem occurs_cons_iff (n : List Char) (c : Char) (t : List Char) :
    Occurs n (c :: t) ↔ (∃ r, c :: t = n ++ r) ∨ Occurs n t := by
  constructor
  · rintro ⟨p, q, hs⟩
    cases p with
    | nil => exact Or.inl ⟨q, by simpa using hs⟩
    | cons d p' =>
      right
      obtain ⟨hd, ht⟩ := by simpa using hs
      exact ⟨p', q, by simpa [List.append_assoc] using ht⟩
  · rintro (⟨r, hr⟩ | ⟨p, q, hs⟩)
    · exact ⟨[], r, by simpa using hr⟩
    · exact ⟨c :: p, q, by simp [hs]⟩

theorem occurs_cons_of_occurs {n : List Char} {c : Char} {t : List Char}
    (h : Occurs n t) : Occurs n (c :: t) :=
  (occurs_cons_iff n c t).2 (Or.inr h)

theorem not_occurs_of_cons {n : List Char} {c : Char} {t : List Char}
    (h : ¬ Occurs n (c :: t)) : ¬ Occurs n t :=
  fun ht => h (occurs_cons_of_occurs ht)

/-- If the needle does not occur strictly before position `g.length`
(no occurrence inside `g ++ n.dropLast`), then `splitFirst` finds
exactly the explicitly given occurrence. -/
theorem splitFirst_first (n : List Char) (hn : n ≠ []) :
    ∀ g t, ¬ Occurs n (g ++ n.dropLast) → splitFirst n (g ++ n ++ t) = some (g, t) := by
  intro g
  induction g with
  | nil =>
    intro t _
    cases n with
    | nil => exact absurd rfl hn
    | cons a n' =>
      have hd : dropPre (a :: n') (a :: (n' ++ t)) = some t := by
        simpa using (dropPre_iff (a :: n') ((a :: n') ++ t) t).2 rfl
      simp [splitFirst, hd]
  | cons c g' ih =>
    intro t hocc
    have hm : 1 ≤ n.length := List.length_pos.2 hn
    simp only [List.cons_append, splitFirst]
    cases hd : dropPre n (c :: (g' ++ n ++ t)) with
    | some r =>
      exfalso
      apply hocc
      have hsr : c :: (g' ++ n ++ t) = n ++ r := (dropPre_iff _ _ _).1 hd
      have hlast : n.dropLast ++ [n.getLast hn] = n := List.dropLast_append_getLast hn
      have h1 : (c :: g') ++ n ++ t =
          ((c :: g') ++ n.dropLast) ++ ([n.getLast hn] ++ t) := by
        conv_lhs => rw [← hlast]
        simp [List.append_assoc]
      have h2 : n = List.take n.length ((c :: g') ++ n ++ t) := by
        have : (c :: g') ++ n ++ t = n ++ r := by simpa using hsr
        rw [this, List.take_left]
      rw [h1, List.take_append_of_le_length (by simp; omega)] at h2
      refine ⟨[], List.drop n.length ((c :: g') ++ n.dropLast), ?_⟩
      conv_lhs => rw [← List.take_append_drop n.length ((c :: g') ++ n.dropLast)]
      rw [← h2]
      simp
    | none =>
      have hrec : splitFirst n (g' ++ (n ++ t)) = some (g', t) := by
        simpa [List.append_assoc] using ih t (not_occurs_of_cons (by simpa using hocc))
      simp [hrec]

/-- A needle whose first two characters differ does not occur in
`g ++ n.dropLast` when its second character is absent from `g`:
the only way to place the needle is at the very end, where its last
character is missing. -/
theorem not_occurs_glue (n0 n1 : Char) (nr : List Char) (hne : n1 ≠ n0) :
    ∀ g, (∀ d ∈ g, d ≠ n1) →
      ¬ Occurs (n0 :: n1 :: nr) (g ++ (n0 :: n1 :: nr).dropLast) := by
  intro g
  induction g with
  | nil =>
    intro _ h
    have hlen := occurs_length h
    simp [List.length_dropLast] at hlen
  | cons c g' ih =>
    intro hg h
    rw [List.cons_append, occurs_cons_iff] at h
    rcases h with ⟨r, hr⟩ | h
    · obtain ⟨hc, hr2⟩ := by simpa using hr
      cases g' with
      | nil =>
        obtain ⟨h01, _⟩ := by simpa using hr2
        exact hne h01.symm
      | cons d g'' =>
        obtain ⟨hd1, _⟩ := by simpa using hr2
        exact hg d (by simp) hd1
    · exact ih (fun d hd => hg d (by simp [hd])) h

theorem not_occurs_sepB_glue (g : List Char) (hg : ∀ d ∈ g, d ≠ '=') :
    ¬ Occurs sepB (g ++ sepB.dropLast) := by
  have hs : sepB = '\n' :: '=' :: "======\n".toList := by decide
  rw [hs]
  exact not_occurs_glue '\n' '=' _ (by decide) g hg

theorem not_occurs_endC_glue (g : List Char) (hg : ∀ d ∈ g, d ≠ '>') :
    ¬ Occurs endC (g ++ endC.dropLast) := by
  have hs : endC = '\n' :: '>' :: ">>>>>> test/test-failure-analysis".toList := by decide
  rw [hs]
  exact not_occurs_glue '\n' '>' _ (by decide) g hg

/-! ### Decomposition of successful matches -/

theorem matchViAt_some {s r : List Char} (h : matchViAt s = some r) :
    ∃ w, s = startMarker ++ w ++ viLit ++ r := by
  unfold matchViAt at h
  cases hd : dropPre startMarker s with
  | none => rw [hd] at h; simp at h
  | some s1 =>
    rw [hd] at h
    have hs : s = startMarker ++ s1 := (dropPre_iff _ _ _).1 hd
    have hv : s1.dropWhile isPySpace = viLit ++ r := (dropPre_iff _ _ _).1 h
    refine ⟨s1.takeWhile isPySpace, ?_⟩
    calc s = startMarker ++ s1 := hs
      _ = startMarker ++ (s1.takeWhile isPySpace ++ s1.dropWhile isPySpace) := by
          rw [List.takeWhile_append_dropWhile]
      _ = startMarker ++ s1.takeWhile isPySpace ++ viLit ++ r := by
          rw [hv]; simp [List.append_assoc]

theorem matchGeneralAt_some {s : List Char} {g2r : List Char × List Char}
    (h : matchGeneralAt s = some g2r) :
    ∃ g1, s = startMarker ++ g1 ++ sepB ++ g2r.1 ++ endC ++ g2r.2 := by
  unfold matchGeneralAt at h
  cases hd : dropPre startMarker s with
  | none => rw [hd] at h; simp at h
  | some s1 =>
    rw [hd] at h
    have hs : s = startMarker ++ s1 := (dropPre_iff _ _ _).1 hd
    have h' : (match splitFirst sepB s1 with
      | none => none
      | some g1s2 =>
        match splitFirst endC g1s2.2 with
        | none => none
        | some g2r => some (g2r.1, g2r.2)) = some g2r := h
    cases h1 : splitFirst sepB s1 with
    | none => rw [h1] at h'; simp at h'
    | some g1s2 =>
      rw [h1] at h'
      have hs1 : s1 = g1s2.1 ++ sepB ++ g1s2.2 :=
        splitFirst_some sepB s1 g1s2.1 g1s2.2 (by rw [h1])
      have h'' : (match splitFirst endC g1s2.2 with
        | none => none
        | some g2r => some (g2r.1, g2r.2)) = some g2r := h'
      cases h2 : splitFirst endC g1s2.2 with
      | none => rw [h2] at h''; simp at h''
      | some g2r' =>
        rw [h2] at h''
        have hs2 : g1s2.2 = g2r'.1 ++ endC ++ g2r'.2 :=
          splitFirst_some endC g1s2.2 g2r'.1 g2r'.2 (by rw [h2])
        have hg : (g2r'.1, g2r'.2) = g2r := by simpa using h''
        refine ⟨g1s2.1, ?_⟩
        rw [← hg, hs, hs1, hs2]
        simp [List.append_assoc]

theorem matchViAt_occurs_endLit {s r : List Char} (h : matchViAt s = some r) :
    Occurs endLit s := by
  obtain ⟨w, hw⟩ := matchViAt_some h
  refine ⟨startMarker ++ w ++ viDecl ++ sepB, r, ?_⟩
  rw [hw]
  simp [viLit, List.append_assoc]

theorem matchGeneralAt_occurs_endLit {s : List Char} {g2r : List Char × List Char}
    (h : matchGeneralAt s = some g2r) : Occurs endLit s := by
  obtain ⟨g1, hg⟩ := matchGeneralAt_some h
  refine ⟨startMarker ++ g1 ++ sepB ++ g2r.1 ++ ['\n'], g2r.2, ?_⟩
  rw [hg]
  simp [endC, List.append_assoc]

theorem matchViAt_some_length {s r : List Char} (h : matchViAt s = some r) :
    r.length + startMarker.length ≤ s.length := by
  obtain ⟨w, hw⟩ := matchViAt_some h
  rw [hw]
  simp
  omega

theorem matchGeneralAt_some_length {s : List Char} {g2r : List Char × List Char}
    (h : matchGeneralAt s = some g2r) :
    g2r.2.length + startMarker.length ≤ s.length := by
  obtain ⟨g1, hg⟩ := matchGeneralAt_some h
  rw [hg]
  simp
  omega

/-- The generic pattern matches a region written out explicitly, provided
the separator does not occur early inside group 1 and the end literal does
not occur early inside group 2. -/
theorem matchGeneralAt_region (g1 g2 r : List Char)
    (h1 : ¬ Occurs sepB (g1 ++ sepB.dropLast))
    (h2 : ¬ Occurs endC (g2 ++ endC.dropLast)) :
    matchGeneralAt (startMarker ++ (g1 ++ (sepB ++ (g2 ++ (endC ++ r))))) =
      some (g2, r) := by
  have hd : dropPre startMarker
      (startMarker ++ (g1 ++ (sepB ++ (g2 ++ (endC ++ r))))) =
      some (g1 ++ (sepB ++ (g2 ++ (endC ++ r)))) := (dropPre_iff _ _ _).2 rfl
  have hs1 : splitFirst sepB (g1 ++ (sepB ++ (g2 ++ (endC ++ r)))) =
      some (g1, g2 ++ (endC ++ r)) := by
    simpa [List.append_assoc] using
      splitFirst_first sepB (by decide) g1 (g2 ++ (endC ++ r)) h1
  have hs2 : splitFirst endC (g2 ++ (endC ++ r)) = some (g2, r) := by
    simpa [List.append_assoc] using
      splitFirst_first endC (by decide) g2 r h2
  unfold matchGeneralAt
  rw [hd]
  show (match splitFirst sepB (g1 ++ (sepB ++ (g2 ++ (endC ++ r)))) with
    | none => none
    | some g1s2 =>
      match splitFirst endC g1s2.2 with
      | none => none
      | some g2r => some (g2r.1, g2r.2)) = some (g2, r)
  rw [hs1]
  show (match splitFirst endC (g2 ++ (endC ++ r)) with
    | none => none
    | some g2r => some (g2r.1, g2r.2)) = some (g2, r)
  rw [hs2]

/-! ### Unfolding equations for the substitution scans -/

theorem viGo_nil (f : Nat) : viGo f [] = [] := by cases f <;> rfl

theorem genGo_nil (f : Nat) : genGo f [] = [] := by cases f <;> rfl

theorem viGo_congr :
    ∀ k f g s, s.length ≤ k → s.length ≤ f → s.length ≤ g → viGo f s = viGo g s := by
  intro k
  induction k with
  | zero =>
    intro f g s hk _ _
    have : s = [] := List.eq_nil_of_length_eq_zero (Nat.le_zero.1 hk)
    subst this
    rw [viGo_nil, viGo_nil]
  | succ k ih =>
    intro f g s hk hf hg
    cases s with
    | nil => rw [viGo_nil, viGo_nil]
    | cons c t =>
      simp only [List.length_cons] at hk hf hg
      cases f with
      | zero => omega
      | succ f' =>
        cases g with
        | zero => omega
        | succ g' =>
          simp only [viGo]
          cases hm : matchViAt (c :: t) with
          | some r =>
            have hlen := matchViAt_some_length hm
            have h13 : startMarker.length = 13 := by decide
            simp only [List.length_cons, h13] at hlen
            show viGo f' r = viGo g' r
            exact ih f' g' r (by omega) (by omega) (by omega)
          | none =>
            show c :: viGo f' t = c :: viGo g' t
            rw [ih f' g' t (by omega) (by omega) (by omega)]

theorem genGo_congr :
    ∀ k f g s, s.length ≤ k → s.length ≤ f → s.length ≤ g → genGo f s = genGo g s := by
  intro k
  induction k with
  | zero =>
    intro f g s hk _ _
    have : s = [] := List.eq_nil_of_length_eq_zero (Nat.le_zero.1 hk)
    subst this
    rw [genGo_nil, genGo_nil]
  | succ k ih =>
    intro f g s hk hf hg
    cases s with
    | nil => rw [genGo_nil, genGo_nil]
    | cons c t =>
      simp only [List.length_cons] at hk hf hg
      cases f with
      | zero => omega
      | succ f' =>
        cases g with
        | zero => omega
        | succ g' =>
          simp only [genGo]
          cases hm : matchGeneralAt (c :: t) with
          | some g2r =>
            have hlen := matchGeneralAt_some_length hm
            have h13 : startMarker.length = 13 := by decide
            simp only [List.length_cons, h13] at hlen
            show g2r.1 ++ genGo f' g2r.2 = g2r.1 ++ genGo g' g2r.2
            rw [ih f' g' g2r.2 (by omega) (by omega) (by omega)]
          | none =>
            show c :: genGo f' t = c :: genGo g' t
            rw [ih f' g' t (by omega) (by omega) (by omega)]

theorem viSub_nil : viSub [] = [] := rfl

theorem genericSub_nil : genericSub [] = [] := rfl

theorem viSub_cons (c : Char) (t : List Char) :
    viSub (c :: t) =
      match matchViAt (c :: t) with
      | some r => viSub r
      | none => c :: viSub t := by
  show viGo (c :: t).length (c :: t) = _
  simp only [List.length_cons, viGo]
  cases hm : matchViAt (c :: t) with
  | some r =>
    have hlen := matchViAt_some_length hm
    have h13 : startMarker.length = 13 := by decide
    simp only [List.length_cons, h13] at hlen
    exact viGo_congr r.length t.length r.length r le_rfl (by omega) le_rfl
  | none =>
    rfl

theorem dropPre_startMarker_none {c : Char} (t : List Char) (hc : c ≠ '<') :
    dropPre startMarker (c :: t) = none := by
  have hsm : startMarker = '<' :: "<<<<<< HEAD\n".toList := by decide
  rw [hsm]
  simp only [dropPre]
  rw [if_neg (fun h : '<' = c => hc h.symm)]

theorem matchViAt_none_of_head {c : Char} (t : List Char) (hc : c ≠ '<') :
    matchViAt (c :: t) = none := by
  unfold matchViAt
  rw [dropPre_startMarker_none t hc]

theorem matchGeneralAt_none_of_head {c : Char} (t : List Char) (hc : c ≠ '<') :
    matchGeneralAt (c :: t) = none := by
  unfold matchGeneralAt
  rw [dropPre_startMarker_none t hc]

theorem genericSub_cons (c : Char) (t : List Char) :
    genericSub (c :: t) =
      match matchGeneralAt (c :: t) with
      | some g2r => g2r.1 ++ genericSub g2r.2
      | none => c :: genericSub t := by
  show genGo (c :: t).length (c :: t) = _
  simp only [List.length_cons, genGo]
  cases hm : matchGeneralAt (c :: t) with
  | some g2r =>
    have hlen := matchGeneralAt_some_length hm
    have h13 : startMarker.length = 13 := by decide
    simp only [List.length_cons, h13] at hlen
    show g2r.1 ++ genGo t.length g2r.2 = g2r.1 ++ genericSub g2r.2
    rw [genGo_congr g2r.2.length t.length g2r.2.length g2r.2 le_rfl (by omega) le_rfl]
    rfl
  | none =>
    rfl

/-- Scanning step: when the generic pattern matches at the head, the scan
emits group 2 and continues after the match. -/
theorem genericSub_match_step (s : List Char) (g2r : List Char × List Char)
    (h : matchGeneralAt s = some g2r) :
    genericSub s = g2r.1 ++ genericSub g2r.2 := by
  cases s with
  | nil =>
    have : matchGeneralAt ([] : List Char) = none := by decide
    rw [this] at h
    exact absurd h (by simp)
  | cons c t =>
    rw [genericSub_cons, h]

/-- Scanning step: when the vi pattern matches at the head, the scan drops
the match and continues after it. -/
theorem viSub_match_step (s r : List Char) (h : matchViAt s = some r) :
    viSub s = viSub r := by
  cases s with
  | nil =>
    have : matchViAt ([] : List Char) = none := by decide
    rw [this] at h
    exact absurd h (by simp)
  | cons c t =>
    rw [viSub_cons, h]

/-! ### Frame and identity properties of the two passes -/

/-- Characters before any occurrence of a start marker are copied verbatim:
the vi pass commutes with a prefix free of the character that opens markers. -/
theorem viSub_append (p s : List Char) (hp : ∀ c ∈ p, c ≠ '<') :
    viSub (p ++ s) = p ++ viSub s := by
  induction p with
  | nil => simp
  | cons c p' ih =>
    have hc : c ≠ '<' := hp c (by simp)
    rw [List.cons_append, viSub_cons, matchViAt_none_of_head _ hc]
    rw [ih (fun d hd => hp d (by simp [hd]))]
    rfl

/-- Characters before any occurrence of a start marker are copied verbatim
by the generic pass as well. -/
theorem genericSub_append (p s : List Char) (hp : ∀ c ∈ p, c ≠ '<') :
    genericSub (p ++ s) = p ++ genericSub s := by
  induction p with
  | nil => simp
  | cons c p' ih =>
    have hc : c ≠ '<' := hp c (by simp)
    rw [List.cons_append, genericSub_cons, matchGeneralAt_none_of_head _ hc]
    rw [ih (fun d hd => hp d (by simp [hd]))]
    rfl

/-- The composed transformation commutes with a prefix containing no `<`. -/
theorem transform_append (p s : List Char) (hp : ∀ c ∈ p, c ≠ '<') :
    transform (p ++ s) = p ++ transform s := by
  unfold transform
  rw [viSub_append p s hp, genericSub_append p (viSub s) hp]

/-- The vi pass is the identity when the end literal does not occur:
both patterns contain the end literal, so neither can match. -/
theorem viSub_id_of_not_occurs (s : List Char) (h : ¬ Occurs endLit s) :
    viSub s = s := by
  induction s with
  | nil => rfl
  | cons c t ih =>
    cases hm : matchViAt (c :: t) with
    | some r => exact absurd (matchViAt_occurs_endLit hm) h
    | none =>
      rw [viSub_cons, hm]
      rw [ih (not_occurs_of_cons h)]

/-- The generic pass is the identity when the end literal does not occur. -/
theorem genericSub_id_of_not_occurs (s : List Char) (h : ¬ Occurs endLit s) :
    genericSub s = s := by
  induction s with
  | nil => rfl
  | cons c t ih =>
    cases hm : matchGeneralAt (c :: t) with
    | some g2r => exact absurd (matchGeneralAt_occurs_endLit hm) h
    | none =>
      rw [genericSub_cons, hm]
      rw [ih (not_occurs_of_cons h)]

/-- The composed transformation is the identity on content in which the
literal `>>>>>>> test/test-failure-analysis` does not occur. -/
theorem transform_id_of_not_occurs (s : List Char) (h : ¬ Occurs endLit s) :
    transform s = s := by
  unfold transform
  rw [viSub_id_of_not_occurs s h, genericSub_id_of_not_occurs s h]

/-- Resolution of an explicitly written region: the generic pass replaces it
by its `theirs` segment and continues after it. -/
theorem genericSub_region (g1 g2 r : List Char)
    (h1 : ¬ Occurs sepB (g1 ++ sepB.dropLast))
    (h2 : ¬ Occurs endC (g2 ++ endC.dropLast)) :
    genericSub (startMarker ++ (g1 ++ (sepB ++ (g2 ++ (endC ++ r))))) =
      g2 ++ genericSub r := by
  exact genericSub_match_step _ (g2, r) (matchGeneralAt_region g1 g2 r h1 h2)

/-- The generic pass is the identity when the pattern matches at no
position of the content. -/
theorem genericSub_id_of_no_match (s : List Char)
    (h : ∀ i, matchGeneralAt (s.drop i) = none) : genericSub s = s := by
  induction s with
  | nil => rfl
  | cons c t ih =>
    have h0 : matchGeneralAt (c :: t) = none := by simpa using h 0
    rw [genericSub_cons, h0]
    rw [ih (fun i => by simpa [List.drop_succ_cons] using h (i + 1))]

/-! ### No-match lemmas for regions with an empty segment (claim C10) -/

/-- An occurrence in a suffix is an occurrence in the whole list. -/
theorem occurs_of_occurs_drop {n l : List Char} {j : Nat}
    (h : Occurs n (l.drop j)) : Occurs n l := by
  obtain ⟨p, q, hs⟩ := h
  refine ⟨l.take j ++ p, q, ?_⟩
  conv_lhs => rw [← List.take_append_drop j l]
  rw [hs]
  simp [List.append_assoc]

/-- An occurrence whose end lies inside the first `k` characters is an
occurrence in the prefix of length `k`. -/
theorem occurs_take {n s : List Char} {k : Nat} (p q : List Char)
    (hs : s = p ++ n ++ q) (hk : p.length + n.length ≤ k) :
    Occurs n (s.take k) := by
  subst hs
  refine ⟨p, q.take (k - (p ++ n).length), ?_⟩
  rw [List.take_append_eq_append_take]
  rw [List.take_of_length_le (show (p ++ n).length ≤ k by simpa using hk)]

/-- The start marker does not begin at any positive position of
`startMarker ++ body` when the marker literal does not occur in `body`:
positions inside the leading marker fail against the marker text itself,
and positions beyond it would be occurrences inside `body`. -/
theorem no_startMarker_at_drop (body : List Char)
    (hm : ¬ Occurs startMarker body) :
    ∀ i, 1 ≤ i → dropPre startMarker ((startMarker ++ body).drop i) = none := by
  have h13 : startMarker.length = 13 := by decide
  intro i hi
  rcases lt_or_ge i 13 with hlt | hge
  · have hdrop : (startMarker ++ body).drop i = startMarker.drop i ++ body :=
      List.drop_append_of_le_length (by omega)
    rw [hdrop]
    cases hd : dropPre startMarker (startMarker.drop i ++ body) with
    | none => rfl
    | some r =>
      exfalso
      have hg : startMarker.drop i ++ body = startMarker ++ r :=
        (dropPre_iff _ _ _).1 hd
      have hlen : (startMarker.drop i).length = 13 - i := by
        rw [List.length_drop, h13]
      have h1 : List.take (13 - i) (startMarker.drop i ++ body) =
          startMarker.drop i := by
        rw [List.take_append_of_le_length (by omega)]
        rw [← hlen, List.take_length]
      have h2 : List.take (13 - i) (startMarker.drop i ++ body) =
          List.take (13 - i) startMarker := by
        rw [hg, List.take_append_of_le_length (by omega)]
      have hfin : startMarker.drop i = List.take (13 - i) startMarker := by
        rw [← h1, h2]
      interval_cases i <;> exact absurd hfin (by decide)
  · have hb13 : (startMarker ++ body).drop 13 = body := by
      rw [show (13 : Nat) = startMarker.length from h13.symm]
      exact List.drop_left _ _
    have hdrop : (startMarker ++ body).drop i = body.drop (i - 13) := by
      calc (startMarker ++ body).drop i
          = (startMarker ++ body).drop (13 + (i - 13)) := by
            rw [show 13 + (i - 13) = i from by omega]
        _ = ((startMarker ++ body).drop 13).drop (i - 13) :=
            (List.drop_drop _ _ _).symm
        _ = body.drop (i - 13) := by rw [hb13]
    rw [hdrop]
    cases hd : dropPre startMarker (body.drop (i - 13)) with
    | none => rfl
    | some r =>
      exfalso
      exact hm (occurs_of_occurs_drop
        ⟨[], r, by simpa using (dropPre_iff _ _ _).1 hd⟩)

theorem matchViAt_none_of_dropPre {s : List Char}
    (h : dropPre startMarker s = none) : matchViAt s = none := by
  unfold matchViAt
  rw [h]

theorem matchGeneralAt_none_of_dropPre {s : List Char}
    (h : dropPre startMarker s = none) : matchGeneralAt s = none := by
  unfold matchGeneralAt
  rw [h]

/-- The vi pass is the identity when the pattern matches at no position of
the content. -/
theorem viSub_id_of_no_match (s : List Char)
    (h : ∀ i, matchViAt (s.drop i) = none) : viSub s = s := by
  induction s with
  | nil => rfl
  | cons c t ih =>
    have h0 : matchViAt (c :: t) = none := by simpa using h 0
    rw [viSub_cons, h0]
    rw [ih (fun i => by simpa [List.drop_succ_cons] using h (i + 1))]

/-- The generic pass leaves `startMarker ++ body` unchanged when the
pattern does not match at position 0 and the start-marker literal does not
occur in `body`. -/
theorem genericSub_id_of_region_body (body : List Char)
    (hm : ¬ Occurs startMarker body)
    (h0 : matchGeneralAt (startMarker ++ body) = none) :
    genericSub (startMarker ++ body) = startMarker ++ body := by
  apply genericSub_id_of_no_match
  intro i
  cases i with
  | zero => simpa using h0
  | succ j =>
    exact matchGeneralAt_none_of_dropPre
      (no_startMarker_at_drop body hm (j + 1) (by omega))

/-- The vi pass leaves `startMarker ++ body` unchanged under the same
conditions. -/
theorem viSub_id_of_region_body (body : List Char)
    (hm : ¬ Occurs startMarker body)
    (h0 : matchViAt (startMarker ++ body) = none) :
    viSub (startMarker ++ body) = startMarker ++ body := by
  apply viSub_id_of_no_match
  intro i
  cases i with
  | zero => simpa using h0
  | succ j =>
    exact matchViAt_none_of_dropPre
      (no_startMarker_at_drop body hm (j + 1) (by omega))

/-- The end-of-pattern literal `\n>>>...` does not occur inside the bare end
line `>>>...` (there is no newline in it). -/
theorem not_occurs_endC_endLit : ¬ Occurs endC endLit := by
  intro h
  exact absurd (occurs_mem h (show '\n' ∈ endC by decide)) (by decide)

/-- The generic pattern does not match at the start of a region whose `ours`
segment is empty (the separator line immediately follows the start line),
provided the separator literal does not occur in the text after the start
line — that is, the `theirs` segment contains no separator line. -/
theorem matchGeneralAt_empty_ours_none (T : List Char)
    (hs : ¬ Occurs sepB (sep8 ++ (T ++ endC))) :
    matchGeneralAt (startMarker ++ (sep8 ++ (T ++ endC))) = none := by
  have hd : dropPre startMarker (startMarker ++ (sep8 ++ (T ++ endC))) =
      some (sep8 ++ (T ++ endC)) := (dropPre_iff _ _ _).2 rfl
  have hsf : splitFirst sepB (sep8 ++ (T ++ endC)) = none :=
    splitFirst_eq_none hs
  unfold matchGeneralAt
  rw [hd]
  show (match splitFirst sepB (sep8 ++ (T ++ endC)) with
    | none => none
    | some g1s2 =>
      match splitFirst endC g1s2.2 with
      | none => none
      | some g2r => some (g2r.1, g2r.2)) = none
  rw [hsf]

/-- The generic pattern does not match at the start of a region whose
`theirs` segment is empty (the end line immediately follows the separator),
provided the region's own separator is the first separator occurrence:
after it, the bare end line contains no `\n>>>...` literal. -/
theorem matchGeneralAt_empty_theirs_none (O : List Char)
    (hO : ¬ Occurs sepB (O ++ sepB.dropLast)) :
    matchGeneralAt (startMarker ++ (O ++ (sepB ++ endLit))) = none := by
  have hd : dropPre startMarker (startMarker ++ (O ++ (sepB ++ endLit))) =
      some (O ++ (sepB ++ endLit)) := (dropPre_iff _ _ _).2 rfl
  have hs1 : splitFirst sepB (O ++ (sepB ++ endLit)) = some (O, endLit) := by
    simpa [List.append_assoc] using splitFirst_first sepB (by decide) O endLit hO
  have hs2 : splitFirst endC endLit = none :=
    splitFirst_eq_none not_occurs_endC_endLit
  unfold matchGeneralAt
  rw [hd]
  show (match splitFirst sepB (O ++ (sepB ++ endLit)) with
    | none => none
    | some g1s2 =>
      match splitFirst endC g1s2.2 with
      | none => none
      | some g2r => some (g2r.1, g2r.2)) = none
  rw [hs1]
  show (match splitFirst endC endLit with
    | none => none
    | some g2r => some (g2r.1, g2r.2)) = none
  rw [hs2]

theorem dropPre_none_of_head_ne {a b : Char} (as bs : List Char) (h : a ≠ b) :
    dropPre (a :: as) (b :: bs) = none := by
  simp [dropPre, h]

/-- The vi pattern does not match at the start of a region whose `ours`
segment is empty: right after the start marker the text begins with the
separator line, whose equals sign is neither whitespace nor the first
character of the vi declaration. -/
theorem matchViAt_empty_ours_none (X : List Char) :
    matchViAt (startMarker ++ (sep8 ++ X)) = none := by
  have hd : dropPre startMarker (startMarker ++ (sep8 ++ X)) =
      some (sep8 ++ X) := (dropPre_iff _ _ _).2 rfl
  unfold matchViAt
  rw [hd]
  show dropPre viLit ((sep8 ++ X).dropWhile isPySpace) = none
  have h8 : sep8 ++ X = '=' :: ("======\n".toList ++ X) := by
    rw [show sep8 = '=' :: "======\n".toList from by decide]
    rfl
  rw [h8, List.dropWhile_cons, if_neg (by decide)]
  rw [show viLit = 'c' :: viLit.tail from by decide]
  exact dropPre_none_of_head_ne _ _ (by decide)

/-- Decomposition of a vi-pattern match, keeping the fact that the consumed
run before the declaration is whitespace. -/
theorem matchViAt_some_decomp {s r : List Char} (h : matchViAt s = some r) :
    ∃ w, (∀ c ∈ w, isPySpace c = true) ∧
      s = startMarker ++ (w ++ (viLit ++ r)) := by
  unfold matchViAt at h
  cases hd : dropPre startMarker s with
  | none => rw [hd] at h; simp at h
  | some s1 =>
    rw [hd] at h
    have hs : s = startMarker ++ s1 := (dropPre_iff _ _ _).1 hd
    have hv : s1.dropWhile isPySpace = viLit ++ r := (dropPre_iff _ _ _).1 h
    refine ⟨s1.takeWhile isPySpace, fun c hc => List.mem_takeWhile_imp hc, ?_⟩
    calc s = startMarker ++ s1 := hs
      _ = startMarker ++ (s1.takeWhile isPySpace ++ s1.dropWhile isPySpace) := by
          rw [List.takeWhile_append_dropWhile]
      _ = startMarker ++ (s1.takeWhile isPySpace ++ (viLit ++ r)) := by rw [hv]

/-- The vi pass on a region with an empty `theirs` segment: either the
region is untouched, or its `ours` segment is exactly a whitespace run
followed by the vi declaration and the whole region is deleted.  This is
the exclusivity of the special case: no other empty-theirs region is ever
removed. -/
theorem viSub_empty_theirs (O : List Char)
    (hO1 : ¬ Occurs sepB (O ++ sepB.dropLast))
    (hO2 : ¬ Occurs startMarker (O ++ (sepB ++ endLit))) :
    viSub (startMarker ++ (O ++ (sepB ++ endLit))) =
      startMarker ++ (O ++ (sepB ++ endLit)) ∨
    (∃ w, (∀ c ∈ w, isPySpace c = true) ∧ O = w ++ viDecl ∧
      viSub (startMarker ++ (O ++ (sepB ++ endLit))) = []) := by
  cases hm : matchViAt (startMarker ++ (O ++ (sepB ++ endLit))) with
  | none =>
    left
    exact viSub_id_of_region_body _ hO2 hm
  | some r =>
    right
    obtain ⟨w, hws, hdec⟩ := matchViAt_some_decomp hm
    have hbody : O ++ (sepB ++ endLit) = w ++ (viLit ++ r) :=
      List.append_cancel_left hdec
    cases r with
    | cons c r' =>
      exfalso
      apply hO1
      have hs : O ++ (sepB ++ endLit) =
          (w ++ viDecl) ++ sepB ++ (endLit ++ (c :: r')) := by
        rw [hbody]
        simp [viLit, List.append_assoc]
      have hlenO : O.length = w.length + viDecl.length + r'.length + 1 := by
        have hl := congrArg List.length hbody
        simp [viLit] at hl
        omega
      have h9 : sepB.length = 9 := by decide
      have hocc : Occurs sepB ((O ++ (sepB ++ endLit)).take (O.length + 8)) := by
        apply occurs_take (w ++ viDecl) (endLit ++ (c :: r')) hs
        simp only [List.length_append]
        omega
      have htake : (O ++ (sepB ++ endLit)).take (O.length + 8) =
          O ++ sepB.dropLast := by
        rw [List.take_append_eq_append_take]
        rw [List.take_of_length_le (show O.length ≤ O.length + 8 by omega)]
        congr 1
        rw [show O.length + 8 - O.length = 8 from by omega]
        decide
      rw [htake] at hocc
      exact hocc
    | nil =>
      have hOw : O = w ++ viDecl := by
        have hc : O ++ (sepB ++ endLit) = (w ++ viDecl) ++ (sepB ++ endLit) := by
          rw [hbody]
          simp [viLit, List.append_assoc]
        exact List.append_cancel_right hc
      exact ⟨w, hws, hOw, (viSub_match_step _ [] hm).trans viSub_nil⟩

/-- The generic pass leaves a region with an empty `ours` segment
unchanged, provided the `theirs` text contains no separator line and no
start-marker line. -/
theorem genericSub_empty_ours_id (T : List Char)
    (hs : ¬ Occurs sepB (sep8 ++ (T ++ endC)))
    (hm : ¬ Occurs startMarker (sep8 ++ (T ++ endC))) :
    genericSub (startMarker ++ (sep8 ++ (T ++ endC))) =
      startMarker ++ (sep8 ++ (T ++ endC)) :=
  genericSub_id_of_region_body _ hm (matchGeneralAt_empty_ours_none T hs)

/-- The vi pass leaves a region with an empty `ours` segment unchanged. -/
theorem viSub_empty_ours_id (T : List Char)
    (hm : ¬ Occurs startMarker (sep8 ++ (T ++ endC))) :
    viSub (startMarker ++ (sep8 ++ (T ++ endC))) =
      startMarker ++ (sep8 ++ (T ++ endC)) :=
  viSub_id_of_region_body _ hm (matchViAt_empty_ours_none (T ++ endC))

/-- The generic pass leaves a region with an empty `theirs` segment
unchanged, provided the `ours` text contains no separator line and no
start-marker line. -/
theorem genericSub_empty_theirs_id (O : List Char)
    (h1 : ¬ Occurs sepB (O ++ sepB.dropLast))
    (hm : ¬ Occurs startMarker (O ++ (sepB ++ endLit))) :
    genericSub (startMarker ++ (O ++ (sepB ++ endLit))) =
      startMarker ++ (O ++ (sepB ++ endLit)) :=
  genericSub_id_of_region_body _ hm (matchGeneralAt_empty_theirs_none O h1)

/-- Bridge from the decidable containment test to the occurrence
proposition. -/
theorem not_occurs_of_containsSub_false {n s : List Char}
    (h : containsSub n s = false) : ¬ Occurs n s := by
  intro ho
  rw [(contains_iff n s).2 ho] at h
  simp at h

/-! ### Lemmas about the file system model -/

theorem fsLookup_fsWrite_isSome (fs : FS) (p : String) (c : List Char) (q : String) :
    (fsLookup (fsWrite fs p c) q).isSome = (fsLookup fs q).isSome := by
  induction fs with
  | nil => rfl
  | cons e t ih =>
    obtain ⟨r, f⟩ := e
    by_cases hrp : r = p
    · subst hrp
      simp only [fsWrite, if_pos rfl]
      by_cases hrq : r = q <;> simp [fsLookup, hrq]
    · simp only [fsWrite, if_neg hrp]
      by_cases hrq : r = q <;> simp [fsLookup, hrq, ih]

theorem resolve_conflicts_exists (fs : FS) (p q : String) :
    fsExists (resolve_conflicts fs p).2 q = fsExists fs q := by
  cases hl : fsLookup fs p with
  | none => simp [resolve_conflicts, hl]
  | some f =>
    cases hre : f.readError with
    | some m => simp [resolve_conflicts, hl, hre]
    | none =>
      cases hwe : f.writeError with
      | some m => simp [resolve_conflicts, hl, hre, hwe]
      | none =>
        simp [resolve_conflicts, hl, hre, hwe, fsExists, fsLookup_fsWrite_isSome]

theorem resolve_generic_conflicts_exists (fs : FS) (p q pref : String) :
    fsExists (resolve_generic_conflicts fs p pref).2 q = fsExists fs q := by
  cases hl : fsLookup fs p with
  | none => simp [resolve_generic_conflicts, hl]
  | some f =>
    cases hre : f.readError with
    | some m => simp [resolve_generic_conflicts, hl, hre]
    | none =>
      by_cases hc : containsSub startLit f.content
      · cases hwe : f.writeError with
        | some m => simp [resolve_generic_conflicts, hl, hre, hc, hwe]
        | none =>
          simp [resolve_generic_conflicts, hl, hre, hc, hwe, fsExists,
            fsLookup_fsWrite_isSome]
      · simp [resolve_generic_conflicts, hl, hre, hc]

theorem resolve_conflicts_path (fs : FS) (p : String) :
    ((resolve_conflicts fs p).1).path = p := by
  cases hl : fsLookup fs p with
  | none => simp [resolve_conflicts, hl, Outcome.path]
  | some f =>
    cases hre : f.readError with
    | some m => simp [resolve_conflicts, hl, hre, Outcome.path]
    | none =>
      cases hwe : f.writeError with
      | some m => simp [resolve_conflicts, hl, hre, hwe, Outcome.path]
      | none => simp [resolve_conflicts, hl, hre, hwe, Outcome.path]

theorem resolve_generic_conflicts_path (fs : FS) (p pref : String) :
    ((resolve_generic_conflicts fs p pref).1).path = p := by
  cases hl : fsLookup fs p with
  | none => simp [resolve_generic_conflicts, hl, Outcome.path]
  | some f =>
    cases hre : f.readError with
    | some m => simp [resolve_generic_conflicts, hl, hre, Outcome.path]
    | none =>
      by_cases hc : containsSub startLit f.content
      · cases hwe : f.writeError with
        | some m => simp [resolve_generic_conflicts, hl, hre, hc, hwe, Outcome.path]
        | none => simp [resolve_generic_conflicts, hl, hre, hc, hwe, Outcome.path]
      · simp [resolve_generic_conflicts, hl, hre, hc, Outcome.path]

/-- The first batch loop produces one outcome per existing path, in input
order, and skips the rest. -/
theorem resolveBatch1_paths (ps : List String) :
    ∀ fs, ((resolveBatch1 fs ps).1).map Outcome.path =
      ps.filter (fun p => fsExists fs p) := by
  induction ps with
  | nil => intro fs; simp [resolveBatch1]
  | cons p ps ih =>
    intro fs
    by_cases he : fsExists fs p
    · simp only [resolveBatch1, if_pos he, List.map_cons, resolve_conflicts_path]
      rw [ih (resolve_conflicts fs p).2]
      rw [List.filter_congr (fun q _ => resolve_conflicts_exists fs p q)]
      simp [List.filter_cons, he]
    · simp only [resolveBatch1, if_neg he]
      rw [ih fs]
      simp [List.filter_cons, he]

/-- The second batch loop produces one outcome per existing path, in input
order, and skips the rest. -/
theorem resolveBatch2_paths (l : List (String × String)) :
    ∀ fs, ((resolveBatch2 fs l).1).map Outcome.path =
      (l.filter (fun e => fsExists fs e.1)).map Prod.fst := by
  induction l with
  | nil => intro fs; simp [resolveBatch2]
  | cons e es ih =>
    intro fs
    by_cases he : fsExists fs e.1
    · simp only [resolveBatch2, if_pos he, List.map_cons, resolve_generic_conflicts_path]
      rw [ih (resolve_generic_conflicts fs e.1 e.2).2]
      rw [List.filter_congr (fun q _ => resolve_generic_conflicts_exists fs e.1 q.1 e.2)]
      simp [List.filter_cons, he]
    · simp only [resolveBatch2, if_neg he]
      rw [ih fs]
      simp [List.filter_cons, he]

/-! ### Error propagation in the per-file operations -/

theorem resolve_conflicts_read_error (fs : FS) (p : String) (f : PyFile)
    (m : List Char) (hl : fsLookup fs p = some f) (hre : f.readError = some m) :
    resolve_conflicts fs p = (.error p m, fs) := by
  simp [resolve_conflicts, hl, hre]

theorem resolve_conflicts_write_error (fs : FS) (p : String) (f : PyFile)
    (m : List Char) (hl : fsLookup fs p = some f) (hre : f.readError = none)
    (hwe : f.writeError = some m) :
    resolve_conflicts fs p = (.error p m, fs) := by
  simp [resolve_conflicts, hl, hre, hwe]

theorem resolve_generic_conflicts_read_error (fs : FS) (p pref : String)
    (f : PyFile) (m : List Char) (hl : fsLookup fs p = some f)
    (hre : f.readError = some m) :
    resolve_generic_conflicts fs p pref = (.error p m, fs) := by
  simp [resolve_generic_conflicts, hl, hre]

theorem resolve_generic_conflicts_write_error (fs : FS) (p pref : String)
    (f : PyFile) (m : List Char) (hl : fsLookup fs p = some f)
    (hre : f.readError = none) (hwe : f.writeError = some m)
    (hc : containsSub startLit f.content = true) :
    resolve_generic_conflicts fs p pref = (.error p m, fs) := by
  simp [resolve_generic_conflicts, hl, hre, hc, hwe]

/-- One failing step of the first batch: the outcome is recorded and the
loop continues on the remaining paths with the state unchanged. -/
theorem resolveBatch1_error_cons (fs : FS) (p : String) (ps : List String)
    (m : List Char) (herr : resolve_conflicts fs p = (.error p m, fs))
    (he : fsExists fs p = true) :
    resolveBatch1 fs (p :: ps) =
      ((Outcome.error p m) :: (resolveBatch1 fs ps).1, (resolveBatch1 fs ps).2) := by
  simp [resolveBatch1, he, herr]

/-- One failing step of the second batch: the outcome is recorded and the
loop continues on the remaining paths with the state unchanged. -/
theorem resolveBatch2_error_cons (fs : FS) (e : String × String)
    (es : List (String × String)) (m : List Char)
    (herr : resolve_generic_conflicts fs e.1 e.2 = (.error e.1 m, fs))
    (he : fsExists fs e.1 = true) :
    resolveBatch2 fs (e :: es) =
      ((Outcome.error e.1 m) :: (resolveBatch2 fs es).1, (resolveBatch2 fs es).2) := by
  simp [resolveBatch2, he, herr]

/-! ### Claim theorems -/

/-- C1, counterexample: a well-formed conflict region whose end label is
`other` is contained in `input1` but not in the transformed output — an
expected-label region appearing later makes the non-greedy group 2 span
across the foreign region and delete its markers, so the region is not left
byte-identical. -/
theorem c1_other_label_clobbered :
    containsSub region1 input1 = true ∧
    containsSub region1 (transform input1) = false := by decide

/-- C1, amended: a conflict region whose end label differs from the expected
identifier is left byte-identical provided the literal
`>>>>>>> test/test-failure-analysis` occurs nowhere in the content; in that
case neither pattern can match and the whole content is unchanged. -/
theorem c1_untouched_without_expected_end (s : List Char)
    (h : containsSub endLit s = false) : transform s = s := by
  apply transform_id_of_not_occurs
  intro ho
  rw [(contains_iff endLit s).2 ho] at h
  simp at h

/-- C1, witness: a content holding only the `other`-labelled region is left
unchanged by the transformation. -/
theorem c1_untouched_without_expected_end_witness :
    containsSub endLit (region1 ++ ['\n']) = false ∧
    transform (region1 ++ ['\n']) = region1 ++ ['\n'] :=
  ⟨by decide, c1_untouched_without_expected_end (region1 ++ ['\n']) (by decide)⟩

/-- C2, counterexample: the per-file operation of resolve_conflicts.py has
no start-marker check: on a file whose content `hello` has no occurrence of
`<<<<<<< HEAD` it reports `resolved` (and performs a write), never
`no-conflict-found`. -/
theorem c2_first_script_always_writes :
    containsSub startLit fileHello.content = false ∧
    (resolve_conflicts fsA "a.txt").1 = Outcome.resolved "a.txt" ∧
    (resolve_conflicts fsA "a.txt").1 ≠ Outcome.noConflict "a.txt" := by decide

/-- C2, amended: resolve_generic_conflicts of resolve_remaining.py reports
`no-conflict-found` and performs no write when the content contains no
occurrence of `<<<<<<< HEAD`. -/
theorem c2_no_marker_reports_no_conflict (fs : FS) (p pref : String) (f : PyFile)
    (hl : fsLookup fs p = some f) (hre : f.readError = none)
    (hc : containsSub startLit f.content = false) :
    resolve_generic_conflicts fs p pref = (Outcome.noConflict p, fs) := by
  simp [resolve_generic_conflicts, hl, hre, hc]

/-- C2, witness: the marker-free file `hello` yields the no-conflict outcome
and an unchanged file system. -/
theorem c2_no_marker_reports_no_conflict_witness :
    containsSub startLit fileHello.content = false ∧
    resolve_generic_conflicts fsB "b.txt" "test" = (Outcome.noConflict "b.txt", fsB) :=
  ⟨by decide, c2_no_marker_reports_no_conflict fsB "b.txt" "test" fileHello
    (by decide) (by decide) (by decide)⟩

/-- C3, counterexample: on the vi-declaration scenario input the
transformation does not return the empty string. -/
theorem c3_vi_scenario_not_empty : transform input3 ≠ [] := by decide

/-- C3, amended: the vi-declaration scenario yields the one-character
content containing a newline: the pattern ends at the end label, so the
trailing newline after the end marker is preserved, not removed. -/
theorem c3_vi_scenario_leaves_newline : transform input3 = ['\n'] := by decide

/-- C4, counterexample: the composed transformation is not idempotent: on
`input4` the first application manufactures a fresh resolvable region out of
group 2 and the text after the match, which only the second application
resolves. -/
theorem c4_not_idempotent :
    transform (transform input4) ≠ transform input4 := by decide

/-- C4, amended: applying the transformation twice agrees with applying it
once whenever the first output no longer contains the literal
`>>>>>>> test/test-failure-analysis` (no remaining resolvable markers). -/
theorem c4_idempotent_when_output_clean (s : List Char)
    (h : containsSub endLit (transform s) = false) :
    transform (transform s) = transform s := by
  apply transform_id_of_not_occurs
  intro ho
  rw [(contains_iff endLit (transform s)).2 ho] at h
  simp at h

/-- C4, witness: the keep-theirs scenario input resolves to clean content,
on which a second application changes nothing. -/
theorem c4_idempotent_when_output_clean_witness :
    containsSub endLit (transform input6) = false ∧
    transform (transform input6) = transform input6 :=
  ⟨by decide, c4_idempotent_when_output_clean input6 (by decide)⟩

/-- C5, counterexample: in `input5` no line is exactly `<<<<<<< HEAD`, so by
the specification grammar the content holds no well-formed conflict region;
the transformation nevertheless rewrites it, because the regex recognizes
the start-marker literal mid-line. -/
theorem c5_rewrites_without_wellformed_region :
    startLit ∉ lines input5 ∧ transform input5 ≠ input5 ∧
    transform input5 = "ABv".toList := by decide

/-- C5, amended: bytes strictly before the first possible start-marker
occurrence are never rewritten: the transformation commutes with any prefix
containing no `<` character, so only text from a regex match onward can
change. -/
theorem c5_prefix_frame (p s : List Char) (hp : ∀ c ∈ p, c ≠ '<') :
    transform (p ++ s) = p ++ transform s :=
  transform_append p s hp

/-- C5, witness: a marker-free prefix line is preserved byte-for-byte around
the resolved scenario content. -/
theorem c5_prefix_frame_witness :
    (∀ c ∈ "hello\n".toList, c ≠ '<') ∧
    transform ("hello\n".toList ++ input6) = "hello\n".toList ++ transform input6 :=
  ⟨by decide, c5_prefix_frame "hello\n".toList input6 (by decide)⟩

/-- C6: the keep-theirs scenario of specification section 8: the region is
replaced by the `theirs` segment `const x = 2` with its newline, and no
marker lines remain. -/
theorem c6_keep_theirs_scenario : transform input6 = "const x = 2\n".toList := by decide

/-- C7, counterexample: an occurrence of `<<<<<<< HEAD` preceded by `AB` on
the same line does begin a conflict region: the transformation resolves it,
keeping the preceding characters and the `theirs` segment. -/
theorem c7_midline_marker_resolved :
    transform input7 = "ABy".toList ∧ transform input7 ≠ input7 := by decide

/-- C7, amended: the start marker is recognized at any occurrence of the
literal `<<<<<<< HEAD` followed by a newline, even mid-line: for a prefix
with no `<`, a group 1 with no early separator and a group 2 with no early
end literal, on which the special-case pass does not fire, the region
starting mid-line is resolved to the prefix followed by group 2. -/
theorem c7_midline_marker_starts_region (p g1 g2 : List Char)
    (hp : ∀ c ∈ p, c ≠ '<') (hg1 : ∀ c ∈ g1, c ≠ '=') (hg2 : ∀ c ∈ g2, c ≠ '>')
    (hv : viSub (p ++ (startMarker ++ (g1 ++ (sepB ++ (g2 ++ endC))))) =
      p ++ (startMarker ++ (g1 ++ (sepB ++ (g2 ++ endC))))) :
    transform (p ++ (startMarker ++ (g1 ++ (sepB ++ (g2 ++ endC))))) = p ++ g2 := by
  unfold transform
  rw [hv]
  rw [genericSub_append p _ hp]
  have hr : genericSub (startMarker ++ (g1 ++ (sepB ++ (g2 ++ (endC ++ []))))) =
      g2 ++ genericSub [] :=
    genericSub_region g1 g2 []
      (not_occurs_sepB_glue g1 hg1) (not_occurs_endC_glue g2 hg2)
  simp only [List.append_nil] at hr
  rw [hr, genericSub_nil, List.append_nil]

/-- C7, witness: a region preceded by `ZW` on the marker line is resolved to
`ZW` followed by its `theirs` segment. -/
theorem c7_midline_marker_starts_region_witness :
    (∀ c ∈ "ZW".toList, c ≠ '<') ∧
    transform ("ZW".toList ++ (startMarker ++
        ("u".toList ++ (sepB ++ ("w".toList ++ endC))))) =
      "ZW".toList ++ "w".toList :=
  ⟨by decide, c7_midline_marker_starts_region "ZW".toList "u".toList "w".toList
    (by decide) (by decide) (by decide) (by decide)⟩

/-- C8: each batch loop produces exactly one outcome per existing input
path, in input order (the outcome paths are the existing paths in order);
non-existent paths are skipped and contribute nothing. -/
theorem c8_one_outcome_per_existing_path (fs : FS) (ps : List String)
    (l : List (String × String)) :
    ((resolveBatch1 fs ps).1).map Outcome.path = ps.filter (fun p => fsExists fs p) ∧
    ((resolveBatch2 fs l).1).map Outcome.path =
      (l.filter (fun e => fsExists fs e.1)).map Prod.fst :=
  ⟨resolveBatch1_paths ps fs, resolveBatch2_paths l fs⟩

/-- C9: an I/O failure on an existing path is caught and reported as an
error outcome carrying the cause message, the file system is unchanged by
the failing step, and both batch loops continue with the remaining paths
exactly as if started there. -/
theorem c9_error_outcome_continues (fs : FS) (p pref : String)
    (ps : List String) (es : List (String × String)) (f : PyFile) (m : List Char)
    (hl : fsLookup fs p = some f) :
    (f.readError = some m →
      resolveBatch1 fs (p :: ps) =
        ((Outcome.error p m) :: (resolveBatch1 fs ps).1, (resolveBatch1 fs ps).2) ∧
      resolveBatch2 fs ((p, pref) :: es) =
        ((Outcome.error p m) :: (resolveBatch2 fs es).1, (resolveBatch2 fs es).2)) ∧
    (f.readError = none → f.writeError = some m →
      resolveBatch1 fs (p :: ps) =
        ((Outcome.error p m) :: (resolveBatch1 fs ps).1, (resolveBatch1 fs ps).2) ∧
      (containsSub startLit f.content = true →
        resolveBatch2 fs ((p, pref) :: es) =
          ((Outcome.error p m) :: (resolveBatch2 fs es).1, (resolveBatch2 fs es).2))) := by
  have he : fsExists fs p = true := by simp [fsExists, hl]
  constructor
  · intro hre
    exact ⟨resolveBatch1_error_cons fs p ps m
        (resolve_conflicts_read_error fs p f m hl hre) he,
      resolveBatch2_error_cons fs (p, pref) es m
        (resolve_generic_conflicts_read_error fs p pref f m hl hre) he⟩
  · intro hre hwe
    refine ⟨resolveBatch1_error_cons fs p ps m
        (resolve_conflicts_write_error fs p f m hl hre hwe) he, ?_⟩
    intro hc
    exact resolveBatch2_error_cons fs (p, pref) es m
      (resolve_generic_conflicts_write_error fs p pref f m hl hre hwe hc) he

/-- C9, witness: a file whose read fails with `Permission denied` yields an
error outcome carrying that message in both batch loops, with the state
unchanged. -/
theorem c9_error_outcome_continues_witness :
    f9.readError = some msg9 ∧
    resolveBatch1 fs9 ["r.txt"] =
      ((Outcome.error "r.txt" msg9) :: (resolveBatch1 fs9 []).1, (resolveBatch1 fs9 []).2) ∧
    resolveBatch2 fs9 [("r.txt", "test")] =
      ((Outcome.error "r.txt" msg9) :: (resolveBatch2 fs9 []).1, (resolveBatch2 fs9 []).2) :=
  ⟨by decide,
    ((c9_error_outcome_continues fs9 "r.txt" "test" [] [] f9 msg9 (by decide)).1
      (by decide)).1,
    ((c9_error_outcome_continues fs9 "r.txt" "test" [] [] f9 msg9 (by decide)).1
      (by decide)).2⟩

/-- C10: for a conflict region with the expected end label whose `ours` or
`theirs` segment is empty — the separator line immediately follows the
start line, or the end line immediately follows the separator — and whose
nonempty segment contains no conflict-marker line (the separator literal
occurs nowhere after the start line besides the region's own, and the start
marker occurs nowhere beyond position 0), the generic pass leaves the
region entirely unchanged: its pattern needs a newline-terminated line in
each group.  Of the empty-segment shapes, only the vi-declaration shape is
ever removed by the special-case pass: that pass leaves every empty-ours
region unchanged, and leaves an empty-theirs region unchanged unless its
`ours` segment is exactly a whitespace run followed by the vi declaration,
in which case it deletes the whole region. -/
theorem c10_empty_segment_regions_untouched (O T : List Char)
    (hT1 : containsSub sepB (sep8 ++ (T ++ endC)) = false)
    (hT2 : containsSub startMarker (sep8 ++ (T ++ endC)) = false)
    (hO1 : containsSub sepB (O ++ sepB.dropLast) = false)
    (hO2 : containsSub startMarker (O ++ (sepB ++ endLit)) = false) :
    (genericSub (startMarker ++ (sep8 ++ (T ++ endC))) =
        startMarker ++ (sep8 ++ (T ++ endC))) ∧
    (viSub (startMarker ++ (sep8 ++ (T ++ endC))) =
        startMarker ++ (sep8 ++ (T ++ endC))) ∧
    (genericSub (startMarker ++ (O ++ (sepB ++ endLit))) =
        startMarker ++ (O ++ (sepB ++ endLit))) ∧
    (viSub (startMarker ++ (O ++ (sepB ++ endLit))) =
        startMarker ++ (O ++ (sepB ++ endLit)) ∨
      (∃ w, (∀ c ∈ w, isPySpace c = true) ∧ O = w ++ viDecl ∧
        viSub (startMarker ++ (O ++ (sepB ++ endLit))) = [])) :=
  ⟨genericSub_empty_ours_id T (not_occurs_of_containsSub_false hT1)
      (not_occurs_of_containsSub_false hT2),
    viSub_empty_ours_id T (not_occurs_of_containsSub_false hT2),
    genericSub_empty_theirs_id O (not_occurs_of_containsSub_false hO1)
      (not_occurs_of_containsSub_false hO2),
    viSub_empty_theirs O (not_occurs_of_containsSub_false hO1)
      (not_occurs_of_containsSub_false hO2)⟩

/-- C10, witness: with the ordinary code segments `const x = 1` and
`const x = 2` (which contain equals signs but no marker line), both
empty-segment regions are untouched by the generic pass. -/
theorem c10_empty_segment_regions_untouched_witness :
    containsSub sepB (sep8 ++ ("const x = 2".toList ++ endC)) = false ∧
    genericSub (startMarker ++ (sep8 ++ ("const x = 2".toList ++ endC))) =
      startMarker ++ (sep8 ++ ("const x = 2".toList ++ endC)) ∧
    genericSub (startMarker ++ ("const x = 1".toList ++ (sepB ++ endLit))) =
      startMarker ++ ("const x = 1".toList ++ (sepB ++ endLit)) :=
  ⟨by decide,
    (c10_empty_segment_regions_untouched "const x = 1".toList "const x = 2".toList
      (by decide) (by decide) (by decide) (by decide)).1,
    (c10_empty_segment_regions_untouched "const x = 1".toList "const x = 2".toList
      (by decide) (by decide) (by decide) (by decide)).2.2.1⟩
